import Mathlib

/-!
Shallow embedding of the company-researcher orchestration core of the
SNIP-tool repository (backend/agents/company_researcher): the merge
reducer (`state.py`), the bounded ReAct loop's routing and iteration
counting, the summarization parse, fan-out dispatch and report
finalization (`graph.py`), and the search-tool query truncation
(`researcher.py`).

Python string operations (`str.strip`, `str.upper`, `str.split`,
`str.startswith`) are embedded as executable character-list functions so
that all parsing theorems evaluate by kernel reduction.
-/

namespace SnipTool

/-! ## Python string primitives -/

/-- `str.strip()` with no argument strips whitespace from both ends. -/
def stripChars (cs : List Char) : List Char :=
  ((cs.dropWhile Char.isWhitespace).reverse.dropWhile Char.isWhitespace).reverse

/-- Python `s.strip()`. -/
def pyStrip (s : String) : String :=
  ⟨stripChars s.data⟩

/-- Python `s.upper()` (ASCII case mapping suffices for the tokens used). -/
def pyUpper (s : String) : String :=
  ⟨s.data.map Char.toUpper⟩

/-- Does the character list `cs` begin with `pre`? (Python `s.startswith(pre)`.) -/
def beginsWith : List Char → List Char → Bool
  | _, [] => true
  | [], _ :: _ => false
  | c :: cs, d :: ds => c == d && beginsWith cs ds

/-- Python `s.startswith(pre)`. -/
def pyStartsWith (s pre : String) : Bool :=
  beginsWith s.data pre.data

/-- Split a character list on a separator character (Python `s.split(sep)`
for a one-character separator: always at least one part, empty parts kept). -/
def splitCharsOn (sep : Char) : List Char → List (List Char)
  | [] => [[]]
  | c :: cs =>
    let rest := splitCharsOn sep cs
    if c == sep then [] :: rest
    else match rest with
      | [] => [[c]]
      | r :: rs => (c :: r) :: rs

/-- Python `s.split(sep)` for a one-character separator. -/
def pySplitOn (sep : Char) (s : String) : List String :=
  (splitCharsOn sep s.data).map fun cs => ⟨cs⟩

/-- Python `s.split(":", 1)[1]`: everything after the first colon
(only evaluated on lines known to contain a colon). -/
def afterFirstColon (s : String) : String :=
  ⟨(s.data.dropWhile (fun c => !(c == ':'))).tail⟩

/-- Python `"\n\n".join(parts)` generalized to any separator. -/
def pyJoin (sep : String) : List String → String
  | [] => ""
  | p :: ps => ps.foldl (fun acc q => acc ++ sep ++ q) p

/-! ## Messages and tool calls

A LangChain message as the researcher subgraph observes it: an
`AIMessage` (content plus a list of tool calls), a `HumanMessage`, or a
`ToolMessage`. A tool call carries its name and — the only argument the
graph code reads — the optional `summary` argument of `finish_research`. -/

/-- A tool-invocation request on an `AIMessage`. `summaryArg` models
`tc["args"].get("summary", ...)`; `none` when the key is absent. -/
structure ToolCall where
  name : String
  summaryArg : Option String
deriving DecidableEq, Repr

/-- A message in a conversation log. -/
inductive Msg
  | ai (content : String) (tool_calls : List ToolCall)
  | human (content : String)
  | tool (content : String)
deriving DecidableEq, Repr

/-! ## Merge reducer (`state.py`, `override_reducer`)

Values flowing through the reducer are Python values: `None`, a list,
or a dict. The reducer only reads the keys `"type"` and `"value"` of a
dict, so a dict is embedded as those two optional fields. Adding two
Python values with `+` succeeds only for two lists; any other
combination raises `TypeError`, embedded as `.err`. -/

/-- A Python value handled by `override_reducer`, with list elements of
type `α`. In the graph the `"value"` entry of an override dict is always
a list (`prepare_research` seeds `[sq.model_dump() ...]` and `[]`), so
the dict case carries an optional list; this universe is closed under
the reducer. -/
inductive PyVal (α : Type)
  | pynone
  | list (xs : List α)
  | dict (typ : Option String) (val : Option (List α))
  | err
deriving DecidableEq, Repr

/-- `if current_value is None: current_value = []` (and likewise for
`new_value`). -/
def noneToList {α : Type} : PyVal α → PyVal α
  | .pynone => .list []
  | v => v

/-- Python `+` on the values the reducer can reach: list concatenation,
`TypeError` (`.err`) otherwise. -/
def pyAdd {α : Type} : PyVal α → PyVal α → PyVal α
  | .list a, .list b => .list (a ++ b)
  | _, _ => .err

/-- `override_reducer(current_value, new_value)` from
`company_researcher/state.py`: a dict tagged `{"type": "override"}`
replaces the current value with its `"value"` entry (or with the dict
itself when the `"value"` key is absent); otherwise `None` arguments
become `[]` and the two values are added. -/
def override_reducer {α : Type} (current_value new_value : PyVal α) : PyVal α :=
  match new_value with
  | .dict t v =>
    if t = some "override" then
      match v with
      | some xs => .list xs
      | none => .dict t v
    else pyAdd (noneToList current_value) (.dict t v)
  | _ => pyAdd (noneToList current_value) (noneToList new_value)

/-! ## Sub-questions, answers, dispatch, merge, report -/

/-- A sub-question row. Modelled from the spec: `SubQuestion`
(`models.py` is not under `src/`) carries a question and its
section/category tag. -/
structure SubQuestion where
  question : String
  sectionTag : String
deriving DecidableEq, Repr

/-- A completed answer. Modelled from the spec: `SubQuestionAnswer`
(`models.py` is not under `src/`) is an immutable value with section,
question text, answer text, source citation, confidence label, and the
raw trace text that produced it. -/
structure SubQuestionAnswer where
  sectionTag : String
  question : String
  answer : String
  source : String
  confidence : String
  raw_research : String
deriving DecidableEq, Repr

/-- The input state handed to one research branch by `Send`. -/
structure BranchInput where
  question : String
  sectionTag : String
  prompt_template : String
  company_name : String
  messages : List Msg
  iterations : Nat
deriving DecidableEq, Repr

/-- Python `f"{i:02d}"` for a natural number. -/
def pad2 (i : Nat) : String :=
  if i < 10 then "0" ++ toString i else toString i

/-- `dispatch_research` (graph.py): one `Send("research_question", ...)`
per sub-question, each carrying the question, its section, a dedicated
prompt template `questions/q{i:02d}.jinja`, the company name, an empty
message log, and iteration counter zero. -/
def dispatch_research (subquestions : List SubQuestion) (company_name : String) :
    List BranchInput :=
  subquestions.enum.map fun p =>
    { question := p.2.question
      sectionTag := p.2.sectionTag
      prompt_template := "questions/q" ++ pad2 p.1 ++ ".jinja"
      company_name := company_name
      messages := []
      iterations := 0 }

/-- The fan-in join. Modelled from the spec: the framework applies the
merge reducer exactly once per completed branch to the accumulator
seeded by `prepare_research`'s override (`{"type": "override",
"value": []}`, i.e. the empty list); the join barrier delivers every
branch's `completed_answers` contribution before `finalize_report`
runs. -/
def mergeAll {α : Type} (contribs : List (PyVal α)) : PyVal α :=
  contribs.foldl override_reducer (.list [])

/-- The final report value. Modelled from the spec:
`CompanyResearchResult` (`models.py` is not under `src/`) carries the
subject identifier and the answers; its serialization `to_json` is
deterministic in this content, so report equality is value equality. -/
structure CompanyResearchResult where
  company_name : String
  answers : List SubQuestionAnswer
deriving DecidableEq, Repr

/-- `finalize_report` (graph.py): build the result from the accumulated
`completed_answers` and the company name. -/
def finalize_report (company_name : String) (completed_answers : List SubQuestionAnswer) :
    CompanyResearchResult :=
  { company_name := company_name, answers := completed_answers }

/-! ## Bounded ReAct loop routing (`graph.py`) -/

/-- The two targets of the conditional edge out of the agent node. -/
inductive Route
  | tools
  | summarize
deriving DecidableEq, Repr

/-- `should_continue_with_tools` (graph.py): with no messages, or a last
message that is not an `AIMessage`, go to summarize; for an assistant
last message go to summarize when it has no tool calls, when every tool
call is `finish_research`, or when `iterations >= max_iterations`;
otherwise go to tools. -/
def should_continue_with_tools (max_research_iterations : Nat) (iterations : Nat)
    (messages : List Msg) : Route :=
  match messages.getLast? with
  | none => .summarize
  | some last =>
    match last with
    | .ai _ tcs =>
      if tcs.isEmpty then .summarize
      else if tcs.all fun tc => tc.name == "finish_research" then .summarize
      else if max_research_iterations ≤ iterations then .summarize
      else .tools
    | _ => .summarize

/-- The iteration update of `tools_with_iteration_counter` (graph.py):
the tool node's message output is joined with
`iterations := iterations + 1`. -/
def tools_iteration_update (iterations : Nat) : Nat :=
  iterations + 1

/-- A phase of the per-branch subgraph: agent node, tools node,
summarize node, or finished. -/
inductive Phase
  | agent
  | tools
  | summarize
  | done
deriving DecidableEq, Repr

/-- The routing target as a phase. -/
def routePhase : Route → Phase
  | .tools => .tools
  | .summarize => .summarize

/-- The observable state of one research branch. -/
structure LoopState where
  phase : Phase
  iterations : Nat
  messages : List Msg
deriving DecidableEq, Repr

/-- One step of the research subgraph, with the inference backend and
the tool outputs as external nondeterminism: the agent node appends one
assistant response and the conditional edge routes on the updated log;
the tools node appends its result messages and increments the counter by
one; the summarize node finishes without touching the counter. -/
inductive LoopStep (maxIter : Nat) : LoopState → LoopState → Prop
  | agent (iters : Nat) (msgs : List Msg) (c : String) (tcs : List ToolCall) :
      LoopStep maxIter ⟨.agent, iters, msgs⟩
        ⟨routePhase (should_continue_with_tools maxIter iters (msgs ++ [.ai c tcs])),
          iters, msgs ++ [.ai c tcs]⟩
  | tools (iters : Nat) (msgs results : List Msg) :
      LoopStep maxIter ⟨.tools, iters, msgs⟩
        ⟨.agent, tools_iteration_update iters, msgs ++ results⟩
  | summarize (iters : Nat) (msgs : List Msg) :
      LoopStep maxIter ⟨.summarize, iters, msgs⟩ ⟨.done, iters, msgs⟩

/-- Reachability of a branch state from the dispatched initial state
(agent phase, counter zero). -/
def LoopReachable (maxIter : Nat) (msgs0 : List Msg) (s : LoopState) : Prop :=
  Relation.ReflTransGen (LoopStep maxIter) ⟨.agent, 0, msgs0⟩ s

/-! ## Summarization (`graph.py`, `summarize_and_format`) -/

/-- The trace parts: `str(msg.content)` for every message (assistant,
tool, and human messages each append their content). -/
def traceParts (messages : List Msg) : List String :=
  messages.map fun m =>
    match m with
    | .ai c _ => c
    | .tool c => c
    | .human c => c

/-- The last observed `finish_research` `summary` argument
(`tc["args"].get("summary", "")`), scanning messages and their tool
calls in order; `""` when none is seen. -/
def finalSummaryToolArg (messages : List Msg) : String :=
  messages.foldl
    (fun acc m =>
      match m with
      | .ai _ tcs =>
        tcs.foldl (fun a tc => if tc.name == "finish_research" then tc.summaryArg.getD "" else a) acc
      | _ => acc)
    ""

/-- `raw_output`: the trace parts joined with blank lines, plus the
`FINAL AGENT SUMMARY` annotation when a finish summary was observed. -/
def rawOutput (messages : List Msg) : String :=
  let base := pyJoin "\n\n" (traceParts messages)
  let arg := finalSummaryToolArg messages
  if arg = "" then base else base ++ "\n\nFINAL AGENT SUMMARY: " ++ arg

/-- The three labelled fields of the summarizer's response. -/
structure ParsedFields where
  answer : String
  source : String
  confidence : String
deriving DecidableEq, Repr

/-- The documented defaults for the three fields. -/
def defaultFields : ParsedFields :=
  { answer := "Unable to determine", source := "Unknown", confidence := "Low" }

/-- One line of the parse loop in `summarize_and_format`:
case-insensitive prefix match on the stripped line against `ANSWER:`,
`SOURCE:`, `CONFIDENCE:` (in that `if`/`elif` order); on a match the
field becomes the stripped text after the first colon. -/
def parseStep (acc : ParsedFields) (line : String) : ParsedFields :=
  if pyStartsWith (pyUpper (pyStrip line)) "ANSWER:" then
    { acc with answer := pyStrip (afterFirstColon (pyStrip line)) }
  else if pyStartsWith (pyUpper (pyStrip line)) "SOURCE:" then
    { acc with source := pyStrip (afterFirstColon (pyStrip line)) }
  else if pyStartsWith (pyUpper (pyStrip line)) "CONFIDENCE:" then
    { acc with confidence := pyStrip (afterFirstColon (pyStrip line)) }
  else acc

/-- Does a line match any of the three labels? (The condition under
which `parseStep` changes its accumulator.) -/
def lineMatchesLabel (line : String) : Bool :=
  pyStartsWith (pyUpper (pyStrip line)) "ANSWER:" ||
    pyStartsWith (pyUpper (pyStrip line)) "SOURCE:" ||
      pyStartsWith (pyUpper (pyStrip line)) "CONFIDENCE:"

/-- The whole parse: fold the line parser over
`response_text.split('\n')`, starting from the defaults. -/
def parseSummary (response_text : String) : ParsedFields :=
  (pySplitOn '\n' response_text).foldl parseStep defaultFields

/-- The summarization model call's outcome: the response text, or the
exception it raised. -/
def responseTextOf : Except String String → String
  | .ok t => t
  | .error e => "Error: " ++ e

/-- The dict returned by the branch's summarize node. -/
structure SummarizeOutput where
  research_summary : String
  completed_answers : List SubQuestionAnswer
deriving DecidableEq, Repr

/-- `summarize_and_format` (graph.py) with the inference call
externalized: build the raw trace, turn a model fault into the text
`Error: {e}`, parse the three fields, and return exactly one
`SubQuestionAnswer` under `completed_answers` for the parent merge. -/
def summarize_and_format (sectionTag question : String) (messages : List Msg)
    (modelResult : Except String String) : SummarizeOutput :=
  let raw := rawOutput messages
  let response_text := responseTextOf modelResult
  let p := parseSummary response_text
  { research_summary := response_text
    completed_answers :=
      [{ sectionTag := sectionTag, question := question, answer := p.answer,
         source := p.source, confidence := p.confidence, raw_research := raw }] }

/-! ## Task preparation (`graph.py`) -/

/-- The `ValueError` message raised by `_extract_company_name`. -/
def noCompanyNameError : String :=
  "No company name found. Please provide the company name."

/-- The loop body of `_extract_company_name` over the already-reversed
message list: return the stripped content of the first human message
whose stripped content is non-empty, else raise. -/
def extractAux : List Msg → Except String String
  | [] => .error noCompanyNameError
  | m :: rest =>
    match m with
    | .human c => if pyStrip c ≠ "" then .ok (pyStrip c) else extractAux rest
    | _ => extractAux rest

/-- `_extract_company_name` (graph.py): scan `reversed(messages)` for a
human message with non-whitespace string content. -/
def _extract_company_name (messages : List Msg) : Except String String :=
  extractAux messages.reverse

/-- The update returned by `prepare_research`: the resolved company
name and the two override seeds. -/
structure PrepareOutput where
  company_name : String
  subquestions : PyVal SubQuestion
  completed_answers : PyVal SubQuestionAnswer
deriving DecidableEq, Repr

/-- `prepare_research` (graph.py): use the state's company name when
truthy, otherwise extract it from the messages (propagating the
`ValueError`); seed `subquestions` with an override of the loaded
question rows and reset `completed_answers` with an override of `[]`.
The CSV question source (`csv_parser.py`, not under `src/`) is passed
in as `subquestions`. -/
def prepare_research (state_company_name : Option String) (messages : List Msg)
    (subquestions : List SubQuestion) : Except String PrepareOutput :=
  let resolved :=
    match state_company_name with
    | some c => if c = "" then _extract_company_name messages else .ok c
    | none => _extract_company_name messages
  resolved.map fun cn =>
    { company_name := cn
      subquestions := .dict (some "override") (some subquestions)
      completed_answers := .dict (some "override") (some []) }

/-! ## Search tool truncation (`researcher.py`) -/

/-- The queries `web_search` dispatches to the search backend:
`queries[:cfg.max_search_queries]`. -/
def web_search_dispatched (max_search_queries : Nat) (queries : List String) :
    List String :=
  queries.take max_search_queries

/-! ## Auxiliary predicates and sample values -/

/-- The condition on a message under which `_extract_company_name`
accepts it: a human message whose stripped content is non-empty. -/
def isGoodHuman (m : Msg) : Bool :=
  match m with
  | .human c => !(pyStrip c == "")
  | _ => false

/-- A concrete completed answer, used to instantiate theorems. -/
def ansA : SubQuestionAnswer :=
  { sectionTag := "s1", question := "q1", answer := "A", source := "u1",
    confidence := "High", raw_research := "t1" }

/-- A second, distinct concrete completed answer. -/
def ansB : SubQuestionAnswer :=
  { sectionTag := "s2", question := "q2", answer := "B", source := "u2",
    confidence := "Low", raw_research := "t2" }

/-! # Helper lemmas -/

/-- A line matching no label leaves the parse accumulator unchanged,
so a fold over such lines is the identity. -/
theorem foldl_parseStep_of_no_label (ls : List String) (acc : ParsedFields)
    (h : ∀ l ∈ ls, lineMatchesLabel l = false) :
    ls.foldl parseStep acc = acc := by
  induction ls generalizing acc with
  | nil => rfl
  | cons a as ih =>
    have ha := h a (List.mem_cons_self a as)
    simp only [lineMatchesLabel, Bool.or_eq_false_iff] at ha
    have hstep : parseStep acc a = acc := by
      simp [parseStep, ha.1.1, ha.1.2, ha.2]
    rw [List.foldl_cons, hstep]
    exact ih _ fun l hl => h l (List.mem_cons_of_mem _ hl)

/-! # Claims -/

/-- C5: the summarization parse reads the response line by line with
case-insensitive prefix matching on `ANSWER:`, `SOURCE:`, `CONFIDENCE:`;
on `"ANSWER: Yes\nSOURCE: page 3\nCONFIDENCE: High\n"` it yields exactly
`answer="Yes"`, `source="page 3"`, `confidence="High"`, and on any text
none of whose lines carries one of the three labels (the empty string
included) it yields the defaults `"Unable to determine"`, `"Unknown"`,
`"Low"`. -/
theorem claim_summarize_parse :
    parseSummary "ANSWER: Yes\nSOURCE: page 3\nCONFIDENCE: High\n" =
      { answer := "Yes", source := "page 3", confidence := "High" } ∧
    ∀ text : String, (∀ l ∈ pySplitOn '\n' text, lineMatchesLabel l = false) →
      parseSummary text = defaultFields := by
  refine ⟨by decide, fun text h => ?_⟩
  exact foldl_parseStep_of_no_label _ _ h

/-- Witness for C5: the default-field branch evaluated on the empty
string and on a label-free text. -/
theorem claim_summarize_parse_witness :
    parseSummary "" = defaultFields ∧
    parseSummary "no labels here\njust prose" = defaultFields :=
  ⟨claim_summarize_parse.2 "" (by decide),
    claim_summarize_parse.2 "no labels here\njust prose" (by decide)⟩

/-- C7: an incoming dict tagged `{"type": "override"}` that carries a
`"value"` makes the reducer return that value and discard the current
value entirely — in particular an override with `[]` after any merged
sequence of appends retains none of the appended entries — while an
untagged incoming list is concatenated onto the current list. -/
theorem claim_override_replaces :
    (∀ (α : Type) (cur : PyVal α) (v : List α),
      override_reducer cur (.dict (some "override") (some v)) = .list v) ∧
    (∀ (α : Type) (contribs : List (PyVal α)),
      override_reducer (mergeAll contribs) (.dict (some "override") (some [])) =
        .list ([] : List α)) ∧
    (∀ (α : Type) (a b : List α),
      override_reducer (.list a) (.list b) = .list (a ++ b)) :=
  ⟨fun _ _ _ => rfl, fun _ _ => rfl, fun _ _ _ => rfl⟩

/-- C10: an override-tagged dict with no `"value"` key is returned
as-is by the reducer (a dict, not a list), and `None` on either side of
an append is treated as the empty list, so `None` is an identity for
the append combination on lists. -/
theorem claim_override_marker_and_none :
    (∀ (α : Type) (cur : PyVal α),
      override_reducer cur (.dict (α := α) (some "override") none) =
        .dict (some "override") none) ∧
    (∀ (α : Type) (xs : List α),
      override_reducer .pynone (.list xs) = .list xs ∧
        override_reducer (.list xs) .pynone = .list xs) := by
  refine ⟨fun _ _ => rfl, fun α xs => ⟨rfl, ?_⟩⟩
  show PyVal.list (xs ++ []) = PyVal.list xs
  rw [List.append_nil]

/-- C8: `web_search` dispatches at most the configured cap of queries:
with `K + 3` queries exactly the first `K` are dispatched, the excess is
silently dropped, and no error is raised. -/
theorem claim_web_search_truncation (K : Nat) (qs : List String)
    (h : qs.length = K + 3) :
    (web_search_dispatched K qs).length = K ∧
    (∀ i : Nat, i < K → (web_search_dispatched K qs)[i]? = qs[i]?) ∧
    (∀ i : Nat, K ≤ i → (web_search_dispatched K qs)[i]? = none) := by
  refine ⟨?_, ?_, ?_⟩
  · simp [web_search_dispatched, h]
  · intro i hi
    simp [web_search_dispatched, List.getElem?_take, hi]
  · intro i hi
    apply List.getElem?_eq_none
    simp only [web_search_dispatched, List.length_take, h]
    omega

/-- Witness for C8: the cap `K = 2` on five queries. -/
theorem claim_web_search_truncation_witness :
    (web_search_dispatched 2 ["a", "b", "c", "d", "e"]).length = 2 :=
  (claim_web_search_truncation 2 ["a", "b", "c", "d", "e"] (by decide)).1

/-- The conditional edge only has two targets. -/
theorem route_eq_tools_or (r : Route) : r = .tools ∨ r = .summarize := by
  cases r
  · exact Or.inl rfl
  · exact Or.inr rfl

/-- Characterization of the summarize branch of the conditional edge
when the last message is an assistant message. -/
theorem should_continue_summarize_iff (maxIter iters : Nat) (msgs : List Msg)
    (c : String) (tcs : List ToolCall) (h : msgs.getLast? = some (.ai c tcs)) :
    should_continue_with_tools maxIter iters msgs = .summarize ↔
      (tcs = [] ∨ (∀ tc ∈ tcs, tc.name = "finish_research") ∨ maxIter ≤ iters) := by
  have e : should_continue_with_tools maxIter iters msgs =
      (if tcs.isEmpty then Route.summarize
       else if tcs.all (fun tc => tc.name == "finish_research") then .summarize
       else if maxIter ≤ iters then .summarize
       else .tools) := by
    unfold should_continue_with_tools
    rw [h]
  rw [e]
  split_ifs with h1 h2 h3
  · simp [List.isEmpty_iff.mp h1]
  · constructor
    · intro _
      exact Or.inr (Or.inl fun tc htc => by
        have := List.all_eq_true.mp h2 tc htc
        exact eq_of_beq this)
    · intro _
      rfl
  · constructor
    · intro _
      exact Or.inr (Or.inr h3)
    · intro _
      rfl
  · constructor
    · intro hc
      exact absurd hc (by decide)
    · rintro (hnil | hall | hle)
      · exact absurd hnil (by simpa [List.isEmpty_iff] using h1)
      · exact absurd (List.all_eq_true.mpr fun tc htc => beq_iff_eq.mpr (hall tc htc)) h2
      · exact absurd hle h3

/-- The conditional edge only routes to the tools node while the
iteration counter is strictly below the configured maximum. -/
theorem should_continue_tools_lt (maxIter iters : Nat) (msgs : List Msg)
    (h : should_continue_with_tools maxIter iters msgs = .tools) :
    iters < maxIter := by
  unfold should_continue_with_tools at h
  split at h
  · exact absurd h (by decide)
  · split at h
    · split_ifs at h with h1 h2 h3
      omega
    · exact absurd h (by decide)

/-- C2: for a branch state whose last message is an assistant message,
the loop goes to SUMMARIZE exactly when the message requests no tool
invocation, or every requested invocation is the finish tool, or the
iteration counter has reached the configured maximum; equivalently it
goes to TOOLS exactly when none of these holds, and in particular a
turn with one finish call and one search call below the budget routes
to TOOLS. -/
theorem claim_agent_summarize_routing (maxIter iters : Nat) (msgs : List Msg)
    (c : String) (tcs : List ToolCall) (h : msgs.getLast? = some (.ai c tcs)) :
    (should_continue_with_tools maxIter iters msgs = .summarize ↔
      (tcs = [] ∨ (∀ tc ∈ tcs, tc.name = "finish_research") ∨ maxIter ≤ iters)) ∧
    (should_continue_with_tools maxIter iters msgs = .tools ↔
      ¬(tcs = [] ∨ (∀ tc ∈ tcs, tc.name = "finish_research") ∨ maxIter ≤ iters)) ∧
    (∀ m i : Nat, i < m →
      should_continue_with_tools m i
        [.ai "turn" [⟨"finish_research", some "done"⟩, ⟨"web_search", none⟩]] =
          .tools) := by
  have hiff := should_continue_summarize_iff maxIter iters msgs c tcs h
  refine ⟨hiff, ?_, ?_⟩
  · constructor
    · intro ht hc
      rw [hiff.mpr hc] at ht
      exact absurd ht (by decide)
    · intro hc
      rcases route_eq_tools_or (should_continue_with_tools maxIter iters msgs) with ht | hs
      · exact ht
      · exact absurd (hiff.mp hs) hc
  · intro m i hi
    have hlast :
        ([Msg.ai "turn" [⟨"finish_research", some "done"⟩, ⟨"web_search", none⟩]]).getLast? =
          some (.ai "turn" [⟨"finish_research", some "done"⟩, ⟨"web_search", none⟩]) := rfl
    have hi2 := should_continue_summarize_iff m i _ _ _ hlast
    rcases route_eq_tools_or
        (should_continue_with_tools m i
          [.ai "turn" [⟨"finish_research", some "done"⟩, ⟨"web_search", none⟩]]) with
      ht | hs
    · exact ht
    · rcases hi2.mp hs with h1 | h2 | h3
      · exact absurd h1 (by decide)
      · have := h2 ⟨"web_search", none⟩ (by decide)
        exact absurd this (by decide)
      · omega

/-- Witness for C2: a mixed finish-and-search turn with the counter
below the maximum routes to the tools node. -/
theorem claim_agent_summarize_routing_witness :
    should_continue_with_tools 3 0
      [.ai "turn" [⟨"finish_research", some "done"⟩, ⟨"web_search", none⟩]] = .tools :=
  (claim_agent_summarize_routing 3 0
    [.ai "turn" [⟨"finish_research", some "done"⟩, ⟨"web_search", none⟩]]
    "turn" [⟨"finish_research", some "done"⟩, ⟨"web_search", none⟩] rfl).2.2 3 0
    (by decide)

/-- The loop invariant: the counter never exceeds the maximum, and in
the tools phase it is strictly below it. -/
theorem loop_inv (maxIter : Nat) (msgs0 : List Msg) (s : LoopState)
    (h : LoopReachable maxIter msgs0 s) :
    s.iterations ≤ maxIter ∧ (s.phase = .tools → s.iterations < maxIter) := by
  induction h with
  | refl =>
    exact ⟨Nat.zero_le _, fun hp => nomatch hp⟩
  | tail _ hstep ih =>
    cases hstep with
    | agent iters msgs c tcs =>
      refine ⟨ih.1, fun hp => ?_⟩
      have htools :
          should_continue_with_tools maxIter iters (msgs ++ [.ai c tcs]) = .tools := by
        rcases route_eq_tools_or
            (should_continue_with_tools maxIter iters (msgs ++ [.ai c tcs])) with ht | hs
        · exact ht
        · rw [hs] at hp
          exact nomatch hp
      exact should_continue_tools_lt _ _ _ htools
    | tools iters msgs results =>
      have hlt := ih.2 rfl
      exact ⟨Nat.succ_le_of_lt hlt, fun hp => nomatch hp⟩
    | summarize iters msgs =>
      exact ⟨ih.1, fun hp => nomatch hp⟩

/-- C3: a branch starts at counter zero (as dispatched); the counter is
incremented by exactly one by the tools node, is unchanged by the agent
and summarize nodes (in particular on the direct AGENT→SUMMARIZE path),
and never exceeds the configured maximum at any reachable loop state. -/
theorem claim_iteration_counter (maxIter : Nat) (msgs0 : List Msg) :
    (∀ s : LoopState, LoopReachable maxIter msgs0 s → s.iterations ≤ maxIter) ∧
    (∀ s s' : LoopState, LoopStep maxIter s s' → s.phase = .tools →
      s'.iterations = s.iterations + 1) ∧
    (∀ s s' : LoopState, LoopStep maxIter s s' → s.phase ≠ .tools →
      s'.iterations = s.iterations) ∧
    (∀ (sqs : List SubQuestion) (name : String),
      ∀ b ∈ dispatch_research sqs name, b.iterations = 0) := by
  refine ⟨fun s h => (loop_inv maxIter msgs0 s h).1, ?_, ?_, ?_⟩
  · intro s s' hstep hp
    cases hstep with
    | agent iters msgs c tcs => exact nomatch hp
    | tools iters msgs results => rfl
    | summarize iters msgs => exact nomatch hp
  · intro s s' hstep hp
    cases hstep with
    | agent iters msgs c tcs => rfl
    | tools iters msgs results => exact absurd rfl hp
    | summarize iters msgs => rfl
  · intro sqs name b hb
    rcases List.mem_map.mp hb with ⟨p, _, rfl⟩
    rfl

/-- Witness for C3: the dispatched initial state is reachable and obeys
the budget; a concrete tools step increments by one; a concrete
summarize step leaves the counter unchanged. -/
theorem claim_iteration_counter_witness :
    ((⟨.agent, 0, []⟩ : LoopState).iterations ≤ 3) ∧
    ((⟨.agent, 1, []⟩ : LoopState).iterations = (⟨.tools, 0, []⟩ : LoopState).iterations + 1) ∧
    ((⟨.done, 2, []⟩ : LoopState).iterations = (⟨.summarize, 2, []⟩ : LoopState).iterations) :=
  ⟨(claim_iteration_counter 3 []).1 ⟨.agent, 0, []⟩ Relation.ReflTransGen.refl,
    (claim_iteration_counter 3 []).2.1 ⟨.tools, 0, []⟩ ⟨.agent, 1, []⟩
      (LoopStep.tools 0 [] []) rfl,
    (claim_iteration_counter 3 []).2.2.1 ⟨.summarize, 2, []⟩ ⟨.done, 2, []⟩
      (LoopStep.summarize 2 []) (by decide)⟩

/-- Folding the reducer over one-element list contributions appends one
entry per contribution. -/
theorem foldl_reducer_singletons {α : Type} :
    ∀ (outs : List (PyVal α)) (acc : List α),
      (∀ o ∈ outs, ∃ e : α, o = .list [e]) →
      ∃ es : List α,
        outs.foldl override_reducer (.list acc) = .list (acc ++ es) ∧
          es.length = outs.length := by
  intro outs
  induction outs with
  | nil =>
    intro acc _
    exact ⟨[], by simp, rfl⟩
  | cons o os ih =>
    intro acc h
    obtain ⟨e, rfl⟩ := h o (List.mem_cons_self o os)
    obtain ⟨es, he, hl⟩ := ih (acc ++ [e]) fun o' ho' => h o' (List.mem_cons_of_mem _ ho')
    refine ⟨e :: es, ?_, by simp [hl]⟩
    rw [List.foldl_cons]
    have h0 : override_reducer (PyVal.list acc) (PyVal.list [e]) = .list (acc ++ [e]) := rfl
    rw [h0, he]
    simp

/-- The fan-in merge of one-element contributions yields a list with
one entry per contribution. -/
theorem mergeAll_of_singletons {α : Type} (outs : List (PyVal α))
    (h : ∀ o ∈ outs, ∃ e : α, o = .list [e]) :
    ∃ es : List α, mergeAll outs = .list es ∧ es.length = outs.length := by
  obtain ⟨es, he, hl⟩ := foldl_reducer_singletons outs [] h
  exact ⟨es, by simpa [mergeAll] using he, hl⟩

/-- The dispatcher creates one branch per sub-question. -/
theorem dispatch_research_length (sqs : List SubQuestion) (name : String) :
    (dispatch_research sqs name).length = sqs.length := by
  simp [dispatch_research]

/-- Folding the reducer over list contributions concatenates them. -/
theorem foldl_reducer_lists {α : Type} :
    ∀ (ls : List (List α)) (acc : List α),
      (ls.map PyVal.list).foldl override_reducer (.list acc) =
        .list (acc ++ ls.flatten) := by
  intro ls
  induction ls with
  | nil =>
    intro acc
    simp
  | cons l ls ih =>
    intro acc
    simp only [List.map_cons, List.foldl_cons]
    have h0 : override_reducer (PyVal.list acc) (PyVal.list l) = .list (acc ++ l) := rfl
    rw [h0, ih]
    simp

/-- The fan-in merge of list contributions is their concatenation. -/
theorem mergeAll_lists {α : Type} (ls : List (List α)) :
    mergeAll (ls.map PyVal.list) = .list ls.flatten := by
  simpa [mergeAll] using foldl_reducer_lists ls []

/-- C1: with one branch dispatched per sub-question and each branch's
summarize step contributing exactly one answer, the merged accumulator
is a list with exactly one entry per dispatched sub-task, in any
completion order; and the summarize step always returns exactly one
`SubQuestionAnswer`. -/
theorem claim_accumulator_exact_count (sqs : List SubQuestion) (name : String)
    (outs : List (PyVal SubQuestionAnswer))
    (hN : outs.length = (dispatch_research sqs name).length)
    (hone : ∀ o ∈ outs, ∃ e : SubQuestionAnswer, o = .list [e]) :
    (∃ entries : List SubQuestionAnswer,
      mergeAll outs = .list entries ∧ entries.length = sqs.length) ∧
    (∀ outs' : List (PyVal SubQuestionAnswer), outs.Perm outs' →
      ∃ entries' : List SubQuestionAnswer,
        mergeAll outs' = .list entries' ∧ entries'.length = sqs.length) ∧
    (∀ (sec q : String) (msgs : List Msg) (r : Except String String),
      (summarize_and_format sec q msgs r).completed_answers.length = 1) := by
  have hlen := dispatch_research_length sqs name
  refine ⟨?_, ?_, fun sec q msgs r => rfl⟩
  · obtain ⟨es, he, hl⟩ := mergeAll_of_singletons outs hone
    exact ⟨es, he, by omega⟩
  · intro outs' hperm
    obtain ⟨es, he, hl⟩ :=
      mergeAll_of_singletons outs' fun o ho => hone o (hperm.mem_iff.mpr ho)
    have hpl := hperm.length_eq
    exact ⟨es, he, by omega⟩

/-- Witness for C1: two sub-questions, two one-entry branch outputs,
merged in both orders. -/
theorem claim_accumulator_exact_count_witness :
    (∃ entries : List SubQuestionAnswer,
      mergeAll [PyVal.list [ansA], PyVal.list [ansB]] = .list entries ∧
        entries.length = 2) ∧
    (∃ entries' : List SubQuestionAnswer,
      mergeAll [PyVal.list [ansB], PyVal.list [ansA]] = .list entries' ∧
        entries'.length = 2) := by
  have hone : ∀ o ∈ [PyVal.list [ansA], PyVal.list [ansB]],
      ∃ e : SubQuestionAnswer, o = .list [e] := by
    intro o ho
    cases ho with
    | head => exact ⟨ansA, rfl⟩
    | tail _ ho' =>
      cases ho' with
      | head => exact ⟨ansB, rfl⟩
      | tail _ ho'' => cases ho''
  have h :=
    claim_accumulator_exact_count [⟨"q1", "s1"⟩, ⟨"q2", "s2"⟩] "Acme"
      [PyVal.list [ansA], PyVal.list [ansB]] rfl hone
  exact ⟨h.1, h.2.1 [PyVal.list [ansB], PyVal.list [ansA]] (List.Perm.swap _ _ _)⟩

/-- C4 counterexample: the append combination is not commutative and
the merged accumulator is not invariant under the order in which the
two branch contributions arrive; the assembled report differs as
well. -/
theorem claim_merge_commutes_counterexample :
    override_reducer (.list [ansA]) (.list [ansB]) ≠
      override_reducer (.list [ansB]) (.list [ansA]) ∧
    mergeAll [PyVal.list [ansA], PyVal.list [ansB]] ≠
      mergeAll [PyVal.list [ansB], PyVal.list [ansA]] ∧
    finalize_report "Acme" [ansA, ansB] ≠ finalize_report "Acme" [ansB, ansA] := by
  decide

/-- C4 (amended): the append combination is associative with the empty
list as identity, and permuting the order in which branch contributions
merge permutes the accumulated entries (same multiset); the report
assembler preserves the company name and carries the accumulated
entries, so reports built from reorderings hold the same answer
multiset. -/
theorem claim_merge_assoc_order (α : Type) :
    (∀ a b c : List α,
      override_reducer (override_reducer (.list a) (.list b)) (.list c) =
        override_reducer (.list a) (override_reducer (.list b) (.list c))) ∧
    (∀ xs : List α,
      override_reducer (.list []) (.list xs) = .list xs ∧
        override_reducer (.list xs) (.list []) = .list xs) ∧
    (∀ outs outs' : List (List α), outs.Perm outs' →
      ∃ es es' : List α,
        mergeAll (outs.map PyVal.list) = .list es ∧
          mergeAll (outs'.map PyVal.list) = .list es' ∧ es.Perm es') ∧
    (∀ (name : String) (es es' : List SubQuestionAnswer), es.Perm es' →
      (finalize_report name es).company_name = (finalize_report name es').company_name ∧
        (finalize_report name es).answers.Perm (finalize_report name es').answers) := by
  refine ⟨?_, ?_, ?_, ?_⟩
  · intro a b c
    show PyVal.list (a ++ b ++ c) = PyVal.list (a ++ (b ++ c))
    rw [List.append_assoc]
  · intro xs
    refine ⟨rfl, ?_⟩
    show PyVal.list (xs ++ []) = PyVal.list xs
    rw [List.append_nil]
  · intro outs outs' hp
    exact ⟨outs.flatten, outs'.flatten, mergeAll_lists outs, mergeAll_lists outs',
      hp.flatten⟩
  · intro name es es' hp
    exact ⟨rfl, hp⟩

/-- Witness for C4 (amended): two contributions merged in both orders
give permuted entries. -/
theorem claim_merge_assoc_order_witness :
    ∃ es es' : List Nat,
      mergeAll ([[1], [2]].map PyVal.list) = .list es ∧
        mergeAll ([[2], [1]].map PyVal.list) = .list es' ∧ es.Perm es' :=
  (claim_merge_assoc_order Nat).2.2.1 [[1], [2]] [[2], [1]] (List.Perm.swap _ _ _)

/-- C6 counterexample: when the summarization call raises `"boom"`, the
branch still returns exactly one entry, but its answer field is the
default `"Unable to determine"`, not an error marker — the marker
`"Error: boom"` goes to the research-summary field instead. -/
theorem claim_summarize_fault_counterexample :
    (summarize_and_format "s" "q" [] (.error "boom")).completed_answers =
      [{ sectionTag := "s", question := "q", answer := "Unable to determine",
         source := "Unknown", confidence := "Low", raw_research := "" }] ∧
    (summarize_and_format "s" "q" [] (.error "boom")).research_summary = "Error: boom" ∧
    (∀ a ∈ (summarize_and_format "s" "q" [] (.error "boom")).completed_answers,
      a.answer ≠ "Error: boom") := by
  decide

/-- C6 (amended): a summarization fault is not propagated — the branch
still returns exactly one `SubQuestionAnswer` entry for the
accumulator; the error marker `Error: {e}` becomes the research-summary
text, and whenever that error text matches none of the three labels the
entry carries the default answer, source and confidence values. -/
theorem claim_summarize_fault_degrades (sec q : String) (msgs : List Msg) (e : String)
    (h : parseSummary ("Error: " ++ e) = defaultFields) :
    (summarize_and_format sec q msgs (.error e)).completed_answers =
      [{ sectionTag := sec, question := q, answer := "Unable to determine",
         source := "Unknown", confidence := "Low", raw_research := rawOutput msgs }] ∧
    (summarize_and_format sec q msgs (.error e)).research_summary = "Error: " ++ e := by
  constructor
  · show [SubQuestionAnswer.mk sec q (parseSummary ("Error: " ++ e)).answer
        (parseSummary ("Error: " ++ e)).source
        (parseSummary ("Error: " ++ e)).confidence (rawOutput msgs)] = _
    rw [h]
    rfl
  · rfl

/-- Witness for C6 (amended): the fault `"boom"` on an empty trace. -/
theorem claim_summarize_fault_degrades_witness :
    (summarize_and_format "s" "q" [] (.error "boom")).completed_answers =
      [{ sectionTag := "s", question := "q", answer := "Unable to determine",
         source := "Unknown", confidence := "Low", raw_research := rawOutput [] }] ∧
    (summarize_and_format "s" "q" [] (.error "boom")).research_summary = "Error: boom" :=
  claim_summarize_fault_degrades "s" "q" [] "boom" (by decide)

/-- Skipping messages that are not accepted keeps the extraction loop
going. -/
theorem extractAux_append (l₁ l₂ : List Msg) (h : ∀ m ∈ l₁, isGoodHuman m = false) :
    extractAux (l₁ ++ l₂) = extractAux l₂ := by
  induction l₁ with
  | nil => rfl
  | cons m ms ih =>
    have hm := h m (List.mem_cons_self m ms)
    have ih' := ih fun m' hm' => h m' (List.mem_cons_of_mem _ hm')
    cases m with
    | human c =>
      simp only [isGoodHuman, Bool.not_eq_false', beq_iff_eq] at hm
      simpa [extractAux, hm] using ih'
    | ai c tcs => simpa [extractAux] using ih'
    | tool c => simpa [extractAux] using ih'

/-- A log with no accepted human message makes the extraction raise. -/
theorem extractAux_error (l : List Msg) (h : ∀ m ∈ l, isGoodHuman m = false) :
    extractAux l = .error noCompanyNameError := by
  have := extractAux_append l [] h
  simpa using this

/-- C9 counterexample: extraction strips whitespace, so the resolved
name can differ from the message content; and a human message whose
content is non-empty but all-whitespace is skipped, so preparation can
fault even though a non-empty human message exists. -/
theorem claim_prepare_fault_counterexample :
    prepare_research none [.human "  Acme "] [] =
      .ok { company_name := "Acme",
            subquestions := .dict (some "override") (some []),
            completed_answers := .dict (some "override") (some []) } ∧
    "Acme" ≠ "  Acme " ∧
    prepare_research none [.human "   "] [] = .error noCompanyNameError ∧
    (∃ c : String, Msg.human c ∈ [Msg.human "   "] ∧ c ≠ "") := by
  refine ⟨rfl, by decide, rfl, "   ", List.mem_cons_self _ _, by decide⟩

/-- C9 (amended): when the state carries no (truthy) company name and
no message is a human message with non-whitespace content, task
preparation fails with the `ValueError` message and produces no update;
otherwise the resolved company name is the whitespace-stripped content
of the last human message with non-whitespace content, and the two
override seeds are emitted. -/
theorem claim_prepare_name_resolution (st : Option String) (msgs : List Msg)
    (sqs : List SubQuestion) :
    (st.getD "" = "" → (∀ m ∈ msgs, isGoodHuman m = false) →
      prepare_research st msgs sqs = .error noCompanyNameError) ∧
    (∀ (pre post : List Msg) (c : String),
      st.getD "" = "" → msgs = pre ++ .human c :: post → pyStrip c ≠ "" →
      (∀ m ∈ post, isGoodHuman m = false) →
      prepare_research st msgs sqs =
        .ok { company_name := pyStrip c,
              subquestions := .dict (some "override") (some sqs),
              completed_answers := .dict (some "override") (some []) }) := by
  have hresolve : st.getD "" = "" →
      (match st with
        | some c => if c = "" then _extract_company_name msgs else .ok c
        | none => _extract_company_name msgs) = _extract_company_name msgs := by
    intro hst
    cases st with
    | none => rfl
    | some c =>
      simp only [Option.getD_some] at hst
      simp [hst]
  constructor
  · intro hst hnone
    have hrev : ∀ m ∈ msgs.reverse, isGoodHuman m = false := by
      intro m hm
      exact hnone m (List.mem_reverse.mp hm)
    have hext : _extract_company_name msgs = .error noCompanyNameError :=
      extractAux_error msgs.reverse hrev
    unfold prepare_research
    rw [hresolve hst, hext]
    rfl
  · intro pre post c hst hdecomp hc hpost
    have hext : _extract_company_name msgs = .ok (pyStrip c) := by
      unfold _extract_company_name
      rw [hdecomp]
      have : (pre ++ Msg.human c :: post).reverse =
          post.reverse ++ (Msg.human c :: pre.reverse) := by
        simp
      rw [this, extractAux_append post.reverse _ fun m hm =>
        hpost m (List.mem_reverse.mp hm)]
      simp [extractAux, hc]
    unfold prepare_research
    rw [hresolve hst, hext]
    rfl

/-- Witness for C9 (amended): the fault on an empty log, and resolution
on a log ending in `" Acme "`. -/
theorem claim_prepare_name_resolution_witness :
    prepare_research none ([] : List Msg) [] = .error noCompanyNameError ∧
    prepare_research none [.human " Acme "] [] =
      .ok { company_name := "Acme",
            subquestions := .dict (some "override") (some []),
            completed_answers := .dict (some "override") (some []) } := by
  constructor
  · exact (claim_prepare_name_resolution none [] []).1 rfl (by intro m hm; cases hm)
  · have h :=
      (claim_prepare_name_resolution none [.human " Acme "] []).2 [] [] " Acme "
        rfl rfl (by decide) (by intro m hm; cases hm)
    exact h

end SnipTool
